import Mathlib

/-!
Verification of the document-processing pipeline of `src/app.py`
(Math PDF Extractor).

The pipeline is shallowly embedded: text is `List Char`, the regex
operations of the source (`re.split`, `re.search`, `re.findall`) are
implemented as deterministic scanners that realize exactly what the
concrete patterns of the source match, the task registry mutations of
`process_task` / `update_progress` are explicit state passing over a
`TaskRec` record, and every mutation of the task record is collected into a
trace so that point-in-time invariants can be stated.  Filesystem and
HTTP side effects (saving images, writing the spreadsheet bytes, CORS,
routing) are outside the embedding; fallible external calls
(`fitz.open`, `pytesseract.image_to_string`, `DataFrame.to_excel`) are
modelled as `Except` values carried by the environment, whose `.error`
case is the Python exception with its string form `str(e)`.

The scanners that consume a variable number of characters per step
(`reSplitF`, `findEqsF`) use structural recursion on a fuel argument so
that the kernel can evaluate them; every step consumes at least one
character (`markerLen_pos`, `eqMatchAt_pos`), so fuel equal to the
length of the text is always sufficient and the fuel never runs out on
the way.
-/

/-- Python whitespace for `str.strip()` and the regex class `\s`
(the common members: ASCII whitespace, no-break space, ideographic
space).  Both source uses share this predicate. -/
def isSpaceChar (c : Char) : Bool :=
  c == ' ' || c == '\t' || c == '\n' || c == '\r' || c == '\x0b' ||
    c == '\x0c' || c == ' ' || c == '　'

/-- `str.strip()` of Python: drop whitespace from both ends. -/
def pyStrip (t : List Char) : List Char :=
  ((t.dropWhile isSpaceChar).reverse.dropWhile isSpaceChar).reverse

/-- `pat` occurs as a contiguous substring of the text (what
`re.search` with a literal pattern decides). -/
def containsSub (pat : List Char) : List Char → Bool
  | [] => pat.isEmpty
  | c :: t' => pat.isPrefixOf (c :: t') || containsSub pat t'

/-- The first alternative of the pattern in `classify_question`
(line 33): the text contains `选择` or an option label `A.`/`B.`/`C.`/`D.`. -/
def hasChoiceMarker (t : List Char) : Bool :=
  containsSub ("选择".data) t || containsSub ("A.".data) t ||
    containsSub ("B.".data) t || containsSub ("C.".data) t ||
    containsSub ("D.".data) t

/-- A blank-fill character, the class `[_＿]` of line 35. -/
def isBlankChar (c : Char) : Bool :=
  c == '_' || c == '＿'

/-- `[_＿]{2,}` of line 35: two adjacent blank-fill characters occur. -/
def hasDoubleBlank : List Char → Bool
  | a :: b :: rest => (isBlankChar a && isBlankChar b) || hasDoubleBlank (b :: rest)
  | _ => false

/-- The second pattern of `classify_question` (line 35): a run of two or
more blank-fill characters, or `填空`, or `空格`. -/
def hasBlankMarker (t : List Char) : Bool :=
  hasDoubleBlank t || containsSub ("填空".data) t || containsSub ("空格".data) t

/-- `classify_question` (lines 31-37): strip, then test the two regex
patterns in priority order; fall back to `解答题`. -/
def classify_question (text : List Char) : List Char :=
  let t := pyStrip text
  if hasChoiceMarker t then "选择题".data
  else if hasBlankMarker t then "填空题".data
  else "解答题".data

/-- The regex class `\d` of the split pattern (line 76), over the digits
occurring in this domain: ASCII and full-width decimal digits. -/
def isDigitChar (c : Char) : Bool :=
  c.isDigit || ('０' ≤ c && c ≤ '９')

/-- The class `[一二三四五六七八九十]` of the split pattern (line 76). -/
def isCjkNumChar (c : Char) : Bool :=
  c == '一' || c == '二' || c == '三' || c == '四' || c == '五' ||
    c == '六' || c == '七' || c == '八' || c == '九' || c == '十'

/-- Length of the match of
`(?:\s*\d+[\.\、]|\s*[一二三四五六七八九十]+[、．])` at the head of `t`
(to be used only at a line start, where `(?m)^` holds), or `none` when
the pattern does not match here.  The character classes of each branch
are pairwise disjoint and the closing punctuation is outside the
repeated classes, so greedy matching needs no backtracking and the
match length is unique. -/
def markerLen (t : List Char) : Option Nat :=
  let ws := (t.takeWhile isSpaceChar).length
  let r := t.drop ws
  let ds := (r.takeWhile isDigitChar).length
  if 0 < ds then
    match r.drop ds with
    | c :: _ => if c == '.' || c == '、' then some (ws + ds + 1) else none
    | [] => none
  else
    let cs := (r.takeWhile isCjkNumChar).length
    if 0 < cs then
      match r.drop cs with
      | c :: _ => if c == '、' || c == '．' then some (ws + cs + 1) else none
      | [] => none
    else none

/-- `re.split(r'(?m)^(?:\s*\d+[\.\、]|\s*[一二三四五六七八九十]+[、．])', t)`
(line 76), fueled: scan left to right; at every position where `(?m)^`
holds (start of the string, or just after a newline) try the marker
pattern; each match closes the current chunk and opens a new one.  The
matched text always ends in punctuation, never in a newline, so the
position after a match is never a line start. -/
def reSplitF : Nat → List Char → Bool → List (List Char)
  | 0, t, _ => [t]
  | fuel + 1, t, ls =>
    match (if ls then markerLen t else none) with
    | some L => [] :: reSplitF fuel (t.drop L) false
    | none =>
      match t with
      | [] => [[]]
      | c :: t' =>
        match reSplitF fuel t' (c == '\n') with
        | [] => [[c]]
        | ch :: chs => (c :: ch) :: chs

/-- The chunks produced by the source's `re.split` call on a page's
fused text. -/
def chunksOf (t : List Char) : List (List Char) :=
  reSplitF t.length t true

/-- Lines 77-80: each chunk is stripped and empty chunks are skipped;
the survivors are the page's segments. -/
def segmentsOf (t : List Char) : List (List Char) :=
  ((chunksOf t).map pyStrip).filter (fun c => !c.isEmpty)

/-- Whether the split pattern matches anywhere in `t` (at any line-start
position), `ls` telling whether the current head is a line start. -/
def hasMarkerFrom : List Char → Bool → Bool
  | [], _ => false
  | c :: t', ls =>
    (ls && (markerLen (c :: t')).isSome) || hasMarkerFrom t' (c == '\n')

/-- Match of `\$([^$]+)\$|\\\(([^)]+)\\\)` (line 81) anchored at the
head of `t`: returns the group body together with the total match
length.  For the `$` branch the body is the maximal nonempty run of
non-`$` characters followed by a closing `$`.  For the `\(` branch the
engine backtracks from the first `)` of the tail; the only way the
mandatory `\)` can follow the nonempty `[^)]+` body is for that first
`)` to be directly preceded by `\`, which then delimits the body. -/
def eqMatchAt (t : List Char) : Option (List Char × Nat) :=
  match t with
  | '$' :: r =>
    let body := r.takeWhile (fun c => c != '$')
    if body.isEmpty then none
    else
      match r.drop body.length with
      | '$' :: _ => some (body, body.length + 2)
      | _ => none
  | '\\' :: '(' :: r =>
    let pre := r.takeWhile (fun c => c != ')')
    match r.drop pre.length with
    | ')' :: _ =>
      if 2 ≤ pre.length && pre.getLast? == some '\\' then
        some (pre.dropLast, pre.length + 3)
      else none
    | _ => none
  | _ => none

/-- `re.findall(r'\$([^$]+)\$|\\\(([^)]+)\\\)', chunk)` combined with
`[a or b for a, b in ... if a or b]` (lines 81-82), fueled: scan left to
right, collect the body of each non-overlapping match in order, resume
after the match.  Exactly one group of each match is nonempty, so the
comprehension keeps every match's body. -/
def findEqsF : Nat → List Char → List (List Char)
  | 0, _ => []
  | _ + 1, [] => []
  | fuel + 1, c :: t' =>
    match eqMatchAt (c :: t') with
    | some (body, L) => body :: findEqsF fuel ((c :: t').drop L)
    | none => findEqsF fuel t'

/-- The ordered list of inline equation bodies of a chunk. -/
def findEqs (t : List Char) : List (List Char) :=
  findEqsF t.length t

/-- `";".join(xs)` of Python. -/
def joinSemi : List (List Char) → List Char
  | [] => []
  | [x] => x
  | x :: xs => x ++ ';' :: joinSemi xs

/-- One row dict appended at lines 83-90: the six keys, in insertion
order. -/
structure Row where
  source_file : List Char
  page : Nat
  raw_text : List Char
  question_type : List Char
  inline_equations : List Char
  local_images : List Char
deriving Repr, DecidableEq

/-- The column names, in order, of the keys of the row dicts (lines
83-90). -/
def sixColumns : List (List Char) :=
  ["source_file".data, "page".data, "raw_text".data, "question_type".data,
    "inline_equations".data, "local_images".data]

/-- Columns of `pd.DataFrame(rows)` (line 95): a list of dicts yields
their keys as columns, but the empty list yields a DataFrame with no
columns at all (`pd.DataFrame([])` has an empty column index), so
`to_excel` then writes an empty sheet without a header row. -/
def dfColumns (rows : List Row) : List (List Char) :=
  match rows with
  | [] => []
  | _ => sixColumns

/-- One page of an opened document, as the pipeline observes it: the
native text layer (line 53), the outcomes of the two OCR calls (lines
57 and 59; `.error` is a raised exception with its message), and the
image paths the page contributes to `local_images` (lines 61-74; the
filesystem writes themselves are outside the embedding). -/
structure PageSpec where
  nativeText : List Char
  ocrPrimary : Except (List Char) (List Char)
  ocrFallback : Except (List Char) (List Char)
  savedImages : List (List Char)
  pageImgPath : List Char

/-- Lines 56-59: try OCR under `chi_sim+eng`; on an exception fall back
to a single retry under `eng`.  The retry is not guarded, so its
exception propagates. -/
def pageOcr (p : PageSpec) : Except (List Char) (List Char) :=
  match p.ocrPrimary with
  | .ok s => .ok s
  | .error _ => p.ocrFallback

/-- The fused text of a page (line 60):
`(text + "\n" + ocr_text).strip()`. -/
def fusedText (native ocrText : List Char) : List Char :=
  pyStrip (native ++ '\n' :: ocrText)

/-- The segments a page contributes (lines 76-80). -/
def pageSegs (p : PageSpec) (ocrText : List Char) : List (List Char) :=
  segmentsOf (fusedText p.nativeText ocrText)

/-- The rows a page appends (lines 77-90), one per non-empty stripped
chunk. -/
def pageRows (srcName : List Char) (pno1 : Nat) (p : PageSpec)
    (ocrText : List Char) : List Row :=
  (pageSegs p ocrText).map fun chunk =>
    { source_file := srcName
      page := pno1
      raw_text := chunk
      question_type := classify_question chunk
      inline_equations := joinSemi (findEqs chunk)
      local_images := joinSemi (p.savedImages ++ [p.pageImgPath]) }

/-- One entry of the `tasks` registry (lines 127-132): status, integer
percent, ordered log, optional result path. -/
structure TaskRec where
  status : List Char
  percent : Int
  log : List (List Char)
  file : Option (List Char)
deriving Repr, DecidableEq

/-- `update_progress` (lines 39-45) for a registered task: an optional
percent overwrite and an optional log append.  `if message:` is Python
truthiness, so an empty message string appends nothing.  The appended
entry is the current clock reading, a space, and the message. -/
def update_progress (t : TaskRec) (percent : Option Int)
    (message : Option (List Char)) (ts : List Char) : TaskRec :=
  let t1 :=
    match percent with
    | some p => { t with percent := p }
    | none => t
  match message with
  | some m => if m.isEmpty then t1 else { t1 with log := t1.log ++ [ts ++ ' ' :: m] }
  | none => t1

/-- The log message of line 93: `processed page {pno+1}/{total}`. -/
def pageMsg (pno1 total : Nat) : List Char :=
  "processed page ".data ++ (Nat.repr pno1).data ++ '/' :: (Nat.repr total).data

/-- The page loop of `extract_single_pdf_to_df` (lines 51-93) with
`task_id` set: arguments are the remaining pages, the 0-based index of
the next page, the `rows` accumulator, the task record and the clock
counter (each `update_progress` call reads the clock once).  Returns
the outcome (`.error` when a page raised), the final task record, the
list of task records after each mutation, and the next clock index.
The per-page percent `int((pno+1)/total*100)` is floor division, the
fractional value being nonnegative. -/
def extractLoop (clk : Nat → List Char) (srcName : List Char) (total : Nat) :
    List PageSpec → Nat → List Row → TaskRec → Nat →
      Except (List Char) (List Row) × TaskRec × List TaskRec × Nat
  | [], _, rows, t, k => (.ok rows, t, [], k)
  | p :: ps, pno, rows, t, k =>
    match pageOcr p with
    | .error e => (.error e, t, [], k)
    | .ok ocrText =>
      let pct : Int := (((pno + 1) * 100) / total : Nat)
      let t' := update_progress t (some pct) (some (pageMsg (pno + 1) total)) (clk k)
      let r := extractLoop clk srcName total ps (pno + 1)
        (rows ++ pageRows srcName (pno + 1) p ocrText) t' (k + 1)
      (r.1, r.2.1, t' :: r.2.2.1, r.2.2.2)

/-- `extract_single_pdf_to_df` (lines 47-96) on an opened document,
starting from task state `t` and clock index `k`. -/
def extract_single_pdf_to_df (clk : Nat → List Char) (srcName : List Char)
    (pages : List PageSpec) (t : TaskRec) (k : Nat) :
    Except (List Char) (List Row) × TaskRec × List TaskRec × Nat :=
  extractLoop clk srcName pages.length pages 0 [] t k

/-- Everything `process_task` observes from outside the task record:
the outcome of `fitz.open` (line 49), the outcome of `df.to_excel`
(line 104), the stored file's base name, the output path
`result_{task_id}.xlsx`, and the clock supplying the
`datetime.datetime.utcnow().isoformat()` strings in call order. -/
structure Env where
  openResult : Except (List Char) (List PageSpec)
  writeResult : Except (List Char) Unit
  srcName : List Char
  outPath : List Char
  clk : Nat → List Char

/-- The `except` block of lines 108-110: set status `error`, then
append `str(e)` to the log, as two separate mutations. -/
def failSteps (t : TaskRec) (e : List Char) : TaskRec × TaskRec :=
  let t3 : TaskRec := { t with status := "error".data }
  let t4 : TaskRec := { t3 with log := t3.log ++ [e] }
  (t3, t4)

/-- Line 100: `tasks[task_id]['status'] = 'processing'`. -/
def procT1 (t0 : TaskRec) : TaskRec :=
  { t0 with status := "processing".data }

/-- Line 101: the start update, the first clock reading. -/
def procT2 (env : Env) (t0 : TaskRec) : TaskRec :=
  update_progress (procT1 t0) (some 1) (some ("start processing".data)) (env.clk 0)

/-- Lines 105-107: set status `done`, record the artifact path, then
the finish update, as three separate mutations. -/
def doneSteps (env : Env) (tf : TaskRec) (k' : Nat) : TaskRec × TaskRec × TaskRec :=
  let t3 : TaskRec := { tf with status := "done".data }
  let t4 : TaskRec := { t3 with file := some env.outPath }
  let t5 := update_progress t4 (some 100) (some ("finished processing".data)) (env.clk k')
  (t3, t4, t5)

/-- `process_task` (lines 98-110) on task state `t0`, returning the
final task record, the list of task records after each registry
mutation (in order), and the rows serialized to the artifact when one
was written.  Mutations in the success path follow the source order:
status `processing` (100), the start update (101), one update per page
(91-93), status `done` (105), the result path (106), the finish update
(107).  Any exception from opening, a page, or serialization reaches
the handler of lines 108-110. -/
def process_task (env : Env) (t0 : TaskRec) :
    TaskRec × List TaskRec × Option (List Row) :=
  let t1 := procT1 t0
  let t2 := procT2 env t0
  match env.openResult with
  | .error e =>
    let s := failSteps t2 e
    (s.2, [t1, t2, s.1, s.2], none)
  | .ok pages =>
    match extract_single_pdf_to_df env.clk env.srcName pages t2 1 with
    | (.error e, tf, d, _) =>
      let s := failSteps tf e
      (s.2, [t1, t2] ++ d ++ [s.1, s.2], none)
    | (.ok rows, tf, d, k') =>
      match env.writeResult with
      | .error e =>
        let s := failSteps tf e
        (s.2, [t1, t2] ++ d ++ [s.1, s.2], none)
      | .ok _ =>
        let u := doneSteps env tf k'
        (u.2.2, [t1, t2] ++ d ++ [u.1, u.2.1, u.2.2], some rows)

/-- The task created by `upload_pdf` for an accepted file (lines
126-132). -/
def initialTask (filename : List Char) : TaskRec :=
  { status := "queued".data
    percent := 0
    log := ["uploaded ".data ++ filename]
    file := none }

/-- Line 115: `file.filename.lower().endswith('.pdf')` (ASCII
lowering, which covers the `.PDF` variants the check is about). -/
def endsWithPdf (filename : List Char) : Bool :=
  (".pdf".data).isSuffixOf (filename.map Char.toLower)

/-- `upload_pdf` (lines 112-134) over the `tasks` registry, an
association list keyed by task id: the filename check happens first;
on success the uploaded bytes are saved (a side effect outside the
registry, which never inspects them), a fresh task id is registered
with a `queued` record, and the id is returned; otherwise a 400
response (`none`) is returned and the registry is untouched.  The
`_content` argument carries the uploaded bytes to show no decision
depends on them. -/
def upload_pdf (registry : List (List Char × TaskRec)) (filename : List Char)
    (_content : List Char) (tid : List Char) :
    List (List Char × TaskRec) × Option (List Char) :=
  if endsWithPdf filename then
    (registry ++ [(tid, initialTask filename)], some tid)
  else
    (registry, none)

/-- Final task record of a run. -/
def finalOf (env : Env) (t0 : TaskRec) : TaskRec :=
  (process_task env t0).1

/-- All task records a run ever exposes, in order: the initial record
followed by the record after each mutation. -/
def historyOf (env : Env) (t0 : TaskRec) : List TaskRec :=
  t0 :: (process_task env t0).2.1

/-- The rows serialized into the result artifact, when the run wrote
one. -/
def artifactOf (env : Env) (t0 : TaskRec) : Option (List Row) :=
  (process_task env t0).2.2

/-- The percent values of the records whose status is `processing`, in
order. -/
def percentsWhileProcessing (tr : List TaskRec) : List Int :=
  (tr.filter (fun t => t.status == ("processing".data))).map (fun t => t.percent)

/-- A page with no native text, empty OCR output and no images. -/
def emptyPage : PageSpec :=
  { nativeText := []
    ocrPrimary := .ok []
    ocrFallback := .ok []
    savedImages := []
    pageImgPath := "IMG".data }

/-- A constant clock used by the concrete runs. -/
def clkT : Nat → List Char := fun _ => "TS".data

/-- The queued task of a typical upload. -/
def tq : TaskRec := initialTask ("exam.pdf".data)

/-- A page whose OCR raises under both language profiles. -/
def pBothFail : PageSpec :=
  { nativeText := "x".data
    ocrPrimary := .error ("no chi_sim".data)
    ocrFallback := .error ("no eng".data)
    savedImages := []
    pageImgPath := "IMG".data }

/-- A run whose single page fails OCR under both language profiles. -/
def envOcrFail : Env :=
  { openResult := .ok [pBothFail]
    writeResult := .ok ()
    srcName := "exam.pdf".data
    outPath := "result_1.xlsx".data
    clk := clkT }

/-- A run over a 101-page document of empty pages. -/
def envBig : Env :=
  { openResult := .ok (List.replicate 101 emptyPage)
    writeResult := .ok ()
    srcName := "exam.pdf".data
    outPath := "result_1.xlsx".data
    clk := clkT }

/-- A run over a one-page document with no extractable or recognized
text. -/
def envEmptyDoc : Env :=
  { openResult := .ok [emptyPage]
    writeResult := .ok ()
    srcName := "exam.pdf".data
    outPath := "result_1.xlsx".data
    clk := clkT }

/-- A run whose document cannot be opened. -/
def envOpenFail : Env :=
  { openResult := .error ("boom".data)
    writeResult := .ok ()
    srcName := "exam.pdf".data
    outPath := "result_1.xlsx".data
    clk := clkT }

/-- Boolean check that a percent sequence never decreases. -/
def nondecreasing : List Int → Bool
  | a :: b :: rest => decide (a ≤ b) && nondecreasing (b :: rest)
  | _ => true

/-- Between two successive registry states, the log may only have been
extended at the end. -/
def LogStep (a b : TaskRec) : Prop :=
  ∃ s, b.log = a.log ++ s

/-- The status transitions the code can make between two successive
registry states: stay, `queued → processing`, or `processing` to a
terminal status. -/
def statusStep (a b : TaskRec) : Prop :=
  a.status = b.status ∨
    (a.status = "queued".data ∧ b.status = "processing".data) ∨
    (a.status = "processing".data ∧
      (b.status = "done".data ∨ b.status = "error".data))

/-- Everything C4 requires of two successive registry states: a legal
status transition; after `error`, only the log may change; after
`done`, the status stays `done` and the log only grows (the completion
step does still set the path and percent — see the counterexample). -/
def taskStep (a b : TaskRec) : Prop :=
  statusStep a b ∧
  (a.status = "error".data → b.status = "error".data ∧ b.percent = a.percent ∧
    b.file = a.file ∧ LogStep a b) ∧
  (a.status = "done".data → b.status = "done".data ∧ LogStep a b)

/-- The per-page percent of line 92: `int((pno+1)/total*100)` as floor
division, for the `i`-th page (0-based). -/
def pctOf (total i : Nat) : Int :=
  (((i + 1) * 100) / total : Nat)

theorem markerLen_pos {t : List Char} {L : Nat} (h : markerLen t = some L) :
    0 < L := by
  simp only [markerLen] at h
  split at h
  · split at h
    · split at h
      · simp only [Option.some.injEq] at h
        omega
      · exact absurd h (by simp)
    · exact absurd h (by simp)
  · split at h
    · split at h
      · split at h
        · simp only [Option.some.injEq] at h
          omega
        · exact absurd h (by simp)
      · exact absurd h (by simp)
    · exact absurd h (by simp)

theorem markerLen_nil : markerLen [] = none := by
  simp [markerLen]

theorem eqMatchAt_pos {t : List Char} {b : List Char} {L : Nat}
    (h : eqMatchAt t = some (b, L)) : 0 < L := by
  simp only [eqMatchAt] at h
  split at h
  · split at h
    · exact absurd h (by simp)
    · split at h
      · simp only [Option.some.injEq, Prod.mk.injEq] at h
        omega
      · exact absurd h (by simp)
  · split at h
    · split at h
      · simp only [Option.some.injEq, Prod.mk.injEq] at h
        omega
      · exact absurd h (by simp)
    · exact absurd h (by simp)
  · exact absurd h (by simp)

example : segmentsOf ("1. foo\n2. bar".data) = ["foo".data, "bar".data] := by
  decide

example : findEqs ("solve $x^2$ and \\(y^2\\)".data) = ["x^2".data, "y^2".data] := by
  decide

example : classify_question ("下列哪个 A. 1 B. 2".data) = "选择题".data := by
  decide

example : classify_question ("结果是 ___ 吗".data) = "填空题".data := by
  decide

example : classify_question ("求证这个命题".data) = "解答题".data := by
  decide

example : segmentsOf ("只有 一段 文本".data) = ["只有 一段 文本".data] := by
  decide

example : segmentsOf ([]) = [] := by decide

example : (finalOf envOcrFail tq).status = "error".data := by decide

example : (finalOf envOcrFail tq).log.getLast? = some ("no eng".data) := by decide

theorem nondecreasing_iff_chain (l : List Int) :
    nondecreasing l = true ↔ List.Chain' (fun a b => a ≤ b) l := by
  induction l with
  | nil => simp [nondecreasing]
  | cons a l ih =>
    cases l with
    | nil => simp [nondecreasing]
    | cons b r =>
      rw [List.chain'_cons, ← ih]
      simp [nondecreasing]

example : (percentsWhileProcessing (historyOf envBig tq))[1]? = some 1 := by decide

example : (percentsWhileProcessing (historyOf envBig tq))[2]? = some 0 := by decide

example : ¬ List.Chain' (fun a b => a ≤ b) (percentsWhileProcessing (historyOf envBig tq)) := by
  rw [← nondecreasing_iff_chain]
  decide

example : (finalOf envEmptyDoc tq).status = "done".data := by decide

example : artifactOf envEmptyDoc tq = some [] := by decide

example : ((historyOf envEmptyDoc tq)[4]?).map (fun s => (s.status, s.file)) = some ("done".data, none) := by decide

example : ((historyOf envEmptyDoc tq)[5]?).map (fun s => (s.status, s.file)) = some ("done".data, some ("result_1.xlsx".data)) := by decide

example : (finalOf envOpenFail tq).log.getLast? = some ("boom".data) := by decide

example : (finalOf envOpenFail tq).log =
    ["uploaded exam.pdf".data, "TS start processing".data, "boom".data] := by decide

theorem LogStep.rfl (t : TaskRec) : LogStep t t :=
  ⟨[], by simp⟩

theorem LogStep.trans {a b c : TaskRec} (h1 : LogStep a b) (h2 : LogStep b c) :
    LogStep a c := by
  obtain ⟨s1, e1⟩ := h1
  obtain ⟨s2, e2⟩ := h2
  exact ⟨s1 ++ s2, by rw [e2, e1, List.append_assoc]⟩

theorem update_progress_status (t : TaskRec) (p : Option Int)
    (m : Option (List Char)) (ts : List Char) :
    (update_progress t p m ts).status = t.status := by
  unfold update_progress
  cases p <;> cases m <;> dsimp <;> try split <;> rfl

theorem update_progress_file (t : TaskRec) (p : Option Int)
    (m : Option (List Char)) (ts : List Char) :
    (update_progress t p m ts).file = t.file := by
  unfold update_progress
  cases p <;> cases m <;> dsimp <;> try split <;> rfl

theorem update_progress_percent (t : TaskRec) (p : Int)
    (m : Option (List Char)) (ts : List Char) :
    (update_progress t (some p) m ts).percent = p := by
  unfold update_progress
  cases m
  · rfl
  · dsimp only
    split <;> rfl

theorem update_progress_log (t : TaskRec) (p : Option Int)
    (m : Option (List Char)) (ts : List Char) :
    LogStep t (update_progress t p m ts) := by
  unfold update_progress
  cases p <;> cases m <;> dsimp
  · exact LogStep.rfl t
  · split
    · exact LogStep.rfl t
    · exact ⟨_, rfl⟩
  · exact LogStep.rfl t
  · split
    · exact LogStep.rfl t
    · exact ⟨_, rfl⟩

theorem update_progress_log_msg (t : TaskRec) (p : Option Int)
    (m ts : List Char) (hm : ¬ m.isEmpty) :
    (update_progress t p (some m) ts).log = t.log ++ [ts ++ ' ' :: m] := by
  unfold update_progress
  cases p <;> dsimp <;> rw [if_neg hm]

theorem extractLoop_final (clk : Nat → List Char) (src : List Char) (total : Nat) :
    ∀ (ps : List PageSpec) (pno : Nat) (rows : List Row) (t : TaskRec) (k : Nat),
      (extractLoop clk src total ps pno rows t k).2.1.status = t.status ∧
        (extractLoop clk src total ps pno rows t k).2.1.file = t.file := by
  intro ps
  induction ps with
  | nil => intro pno rows t k; exact ⟨rfl, rfl⟩
  | cons p ps ih =>
    intro pno rows t k
    simp only [extractLoop]
    cases hocr : pageOcr p with
    | error e => exact ⟨rfl, rfl⟩
    | ok s =>
      dsimp only
      refine ⟨?_, ?_⟩
      · rw [(ih _ _ _ _).1, update_progress_status]
      · rw [(ih _ _ _ _).2, update_progress_file]

theorem extractLoop_mem (clk : Nat → List Char) (src : List Char) (total : Nat) :
    ∀ (ps : List PageSpec) (pno : Nat) (rows : List Row) (t : TaskRec) (k : Nat),
      ∀ s ∈ (extractLoop clk src total ps pno rows t k).2.2.1,
        s.status = t.status ∧ s.file = t.file := by
  intro ps
  induction ps with
  | nil => intro pno rows t k s hs; exact absurd hs (by simp [extractLoop])
  | cons p ps ih =>
    intro pno rows t k s hs
    simp only [extractLoop] at hs
    cases hocr : pageOcr p with
    | error e => rw [hocr] at hs; exact absurd hs (by simp)
    | ok o =>
      rw [hocr] at hs
      dsimp only at hs
      rcases List.mem_cons.mp hs with he | hm
      · subst he
        exact ⟨update_progress_status _ _ _ _, update_progress_file _ _ _ _⟩
      · have h := ih _ _ _ _ _ hm
        rw [update_progress_status, update_progress_file] at h
        exact h

theorem extractLoop_chain (clk : Nat → List Char) (src : List Char) (total : Nat) :
    ∀ (ps : List PageSpec) (pno : Nat) (rows : List Row) (t : TaskRec) (k : Nat),
      List.Chain' LogStep (t :: (extractLoop clk src total ps pno rows t k).2.2.1) := by
  intro ps
  induction ps with
  | nil => intro pno rows t k; simp [extractLoop]
  | cons p ps ih =>
    intro pno rows t k
    simp only [extractLoop]
    cases hocr : pageOcr p with
    | error e => simp
    | ok o =>
      dsimp only
      exact List.chain'_cons.mpr ⟨update_progress_log _ _ _ _, ih _ _ _ _⟩

theorem extractLoop_getLast (clk : Nat → List Char) (src : List Char) (total : Nat) :
    ∀ (ps : List PageSpec) (pno : Nat) (rows : List Row) (t : TaskRec) (k : Nat),
      (t :: (extractLoop clk src total ps pno rows t k).2.2.1).getLast? =
        some (extractLoop clk src total ps pno rows t k).2.1 := by
  intro ps
  induction ps with
  | nil => intro pno rows t k; rfl
  | cons p ps ih =>
    intro pno rows t k
    simp only [extractLoop]
    cases hocr : pageOcr p with
    | error e => rfl
    | ok o =>
      dsimp only
      rw [List.getLast?_cons_cons]
      exact ih _ _ _ _

theorem extractLoop_percents (clk : Nat → List Char) (src : List Char) (total : Nat) :
    ∀ (ps : List PageSpec) (pno : Nat) (rows : List Row) (t : TaskRec) (k : Nat),
      ((extractLoop clk src total ps pno rows t k).2.2.1).map (fun s => s.percent) =
        (List.range (extractLoop clk src total ps pno rows t k).2.2.1.length).map
          (fun i => (((pno + 1 + i) * 100 / total : Nat) : Int)) := by
  intro ps
  induction ps with
  | nil => intro pno rows t k; simp [extractLoop]
  | cons p ps ih =>
    intro pno rows t k
    simp only [extractLoop]
    cases hocr : pageOcr p with
    | error e => simp
    | ok o =>
      dsimp only
      rw [List.map_cons, update_progress_percent, ih, List.length_cons,
        List.range_succ_eq_map, List.map_cons, List.map_map]
      refine congrArg₂ _ (by norm_num) (List.map_congr_left ?_)
      intro i _
      simp only [Function.comp_apply]
      norm_num
      congr 2
      omega

theorem extractLoop_len (clk : Nat → List Char) (src : List Char) (total : Nat) :
    ∀ (ps : List PageSpec) (pno : Nat) (rows : List Row) (t : TaskRec) (k : Nat)
      (rows' : List Row),
      (extractLoop clk src total ps pno rows t k).1 = .ok rows' →
      (extractLoop clk src total ps pno rows t k).2.2.1.length = ps.length := by
  intro ps
  induction ps with
  | nil => intro pno rows t k rows' _; rfl
  | cons p ps ih =>
    intro pno rows t k rows' h
    simp only [extractLoop] at h ⊢
    cases hocr : pageOcr p with
    | error e => rw [hocr] at h; exact absurd h (by simp)
    | ok o =>
      rw [hocr] at h
      dsimp only at h ⊢
      rw [List.length_cons, ih _ _ _ _ _ h, List.length_cons]

theorem extractLoop_empty (clk : Nat → List Char) (src : List Char) (total : Nat) :
    ∀ (ps : List PageSpec) (pno : Nat) (rows : List Row) (t : TaskRec) (k : Nat),
      (∀ p ∈ ps, ∃ s, pageOcr p = .ok s ∧ pageSegs p s = []) →
      (extractLoop clk src total ps pno rows t k).1 = .ok rows := by
  intro ps
  induction ps with
  | nil => intro pno rows t k _; rfl
  | cons p ps ih =>
    intro pno rows t k h
    obtain ⟨s, hs, hsegs⟩ := h p (List.mem_cons_self p ps)
    simp only [extractLoop, hs]
    have hrows : pageRows src (pno + 1) p s = [] := by
      simp [pageRows, hsegs]
    rw [hrows, List.append_nil]
    exact ih _ _ _ _ (fun q hq => h q (List.mem_cons_of_mem p hq))

theorem process_open_error (env : Env) (t0 : TaskRec) (e : List Char)
    (h : env.openResult = .error e) :
    process_task env t0 =
      ((failSteps (procT2 env t0) e).2,
        [procT1 t0, procT2 env t0,
          (failSteps (procT2 env t0) e).1, (failSteps (procT2 env t0) e).2],
        none) := by
  unfold process_task
  rw [h]

theorem process_extract_error (env : Env) (t0 : TaskRec)
    (pages : List PageSpec) (e : List Char) (tf : TaskRec) (d : List TaskRec)
    (k2 : Nat) (h : env.openResult = .ok pages)
    (hex : extract_single_pdf_to_df env.clk env.srcName pages (procT2 env t0) 1 =
      (.error e, tf, d, k2)) :
    process_task env t0 =
      ((failSteps tf e).2,
        [procT1 t0, procT2 env t0] ++ d ++ [(failSteps tf e).1, (failSteps tf e).2],
        none) := by
  unfold process_task
  rw [h]
  dsimp only
  rw [hex]

theorem process_write_error (env : Env) (t0 : TaskRec)
    (pages : List PageSpec) (rows : List Row) (e : List Char) (tf : TaskRec)
    (d : List TaskRec) (k2 : Nat) (h : env.openResult = .ok pages)
    (hex : extract_single_pdf_to_df env.clk env.srcName pages (procT2 env t0) 1 =
      (.ok rows, tf, d, k2))
    (hw : env.writeResult = .error e) :
    process_task env t0 =
      ((failSteps tf e).2,
        [procT1 t0, procT2 env t0] ++ d ++ [(failSteps tf e).1, (failSteps tf e).2],
        none) := by
  unfold process_task
  rw [h]
  dsimp only
  rw [hex]
  dsimp only
  rw [hw]

theorem process_done (env : Env) (t0 : TaskRec)
    (pages : List PageSpec) (rows : List Row) (tf : TaskRec)
    (d : List TaskRec) (k2 : Nat) (h : env.openResult = .ok pages)
    (hex : extract_single_pdf_to_df env.clk env.srcName pages (procT2 env t0) 1 =
      (.ok rows, tf, d, k2))
    (hw : env.writeResult = .ok ()) :
    process_task env t0 =
      ((doneSteps env tf k2).2.2,
        [procT1 t0, procT2 env t0] ++ d ++
          [(doneSteps env tf k2).1, (doneSteps env tf k2).2.1, (doneSteps env tf k2).2.2],
        some rows) := by
  unfold process_task
  rw [h]
  dsimp only
  rw [hex]
  dsimp only
  rw [hw]

theorem procT1_status (t0 : TaskRec) : (procT1 t0).status = "processing".data := rfl

theorem procT1_file (t0 : TaskRec) : (procT1 t0).file = t0.file := rfl

theorem procT1_percent (t0 : TaskRec) : (procT1 t0).percent = t0.percent := rfl

theorem procT1_log (t0 : TaskRec) : (procT1 t0).log = t0.log := rfl

theorem procT2_status (env : Env) (t0 : TaskRec) :
    (procT2 env t0).status = "processing".data := by
  rw [procT2, update_progress_status, procT1_status]

theorem procT2_file (env : Env) (t0 : TaskRec) :
    (procT2 env t0).file = t0.file := by
  rw [procT2, update_progress_file, procT1_file]

theorem procT2_percent (env : Env) (t0 : TaskRec) :
    (procT2 env t0).percent = 1 := by
  rw [procT2, update_progress_percent]

theorem procT2_log (env : Env) (t0 : TaskRec) :
    (procT2 env t0).log = t0.log ++ [env.clk 0 ++ ' ' :: ("start processing".data)] := by
  rw [procT2, update_progress_log_msg _ _ _ _ (by decide), procT1_log]

theorem failSteps_fst (t : TaskRec) (e : List Char) :
    (failSteps t e).1 = { t with status := "error".data } := rfl

theorem failSteps_snd (t : TaskRec) (e : List Char) :
    (failSteps t e).2 =
      { t with status := "error".data, log := t.log ++ [e] } := rfl

theorem doneSteps_fst (env : Env) (tf : TaskRec) (k' : Nat) :
    (doneSteps env tf k').1 = { tf with status := "done".data } := rfl

theorem doneSteps_snd (env : Env) (tf : TaskRec) (k' : Nat) :
    (doneSteps env tf k').2.1 =
      { tf with status := "done".data, file := some env.outPath } := rfl

theorem doneSteps_thd (env : Env) (tf : TaskRec) (k' : Nat) :
    (doneSteps env tf k').2.2 =
      { tf with
          status := "done".data
          file := some env.outPath
          percent := 100
          log := tf.log ++ [env.clk k' ++ ' ' :: ("finished processing".data)] } := by
  show update_progress { tf with status := "done".data, file := some env.outPath }
      (some 100) (some ("finished processing".data)) (env.clk k') = _
  rw [update_progress]
  dsimp only
  rw [if_neg (by decide)]

/-- Every run falls into one of the four branches of `process_task`. -/
theorem process_cases (env : Env) (t0 : TaskRec) :
    (∃ e, env.openResult = .error e) ∨
    (∃ pages e tf d k2, env.openResult = .ok pages ∧
      extract_single_pdf_to_df env.clk env.srcName pages (procT2 env t0) 1 =
        (.error e, tf, d, k2)) ∨
    (∃ pages rows e tf d k2, env.openResult = .ok pages ∧
      extract_single_pdf_to_df env.clk env.srcName pages (procT2 env t0) 1 =
        (.ok rows, tf, d, k2) ∧ env.writeResult = .error e) ∨
    (∃ pages rows tf d k2, env.openResult = .ok pages ∧
      extract_single_pdf_to_df env.clk env.srcName pages (procT2 env t0) 1 =
        (.ok rows, tf, d, k2) ∧ env.writeResult = .ok ()) := by
  cases ho : env.openResult with
  | error e => exact Or.inl ⟨e, rfl⟩
  | ok pages =>
    rcases hex : extract_single_pdf_to_df env.clk env.srcName pages (procT2 env t0) 1
      with ⟨res, tf, d, k2⟩
    cases res with
    | error e => exact Or.inr (Or.inl ⟨pages, e, tf, d, k2, rfl, hex⟩)
    | ok rows =>
      cases hw : env.writeResult with
      | error e => exact Or.inr (Or.inr (Or.inl ⟨pages, rows, e, tf, d, k2, rfl, hex, rfl⟩))
      | ok u =>
        cases u
        exact Or.inr (Or.inr (Or.inr ⟨pages, rows, tf, d, k2, rfl, hex, rfl⟩))

theorem getLast_append_one {α : Type} (l : List α) (a : α) :
    (l ++ [a]).getLast? = some a := List.getLast?_concat l

/-- C7: the classifier is a pure total function from text to the closed
three-label set, decided in priority order: a choice marker (`选择` or
an option label `A.`/`B.`/`C.`/`D.`) gives `选择题`; otherwise two or
more consecutive blank-fill characters or a fill-in-the-blank keyword
give `填空题`; otherwise `解答题`.  Determinism is inherent in
`classify_question` being a function. -/
theorem C7_classifier :
    (∀ t : List Char, classify_question t = "选择题".data ∨
        classify_question t = "填空题".data ∨ classify_question t = "解答题".data) ∧
    (∀ t : List Char, hasChoiceMarker (pyStrip t) = true →
        classify_question t = "选择题".data) ∧
    (∀ t : List Char, hasChoiceMarker (pyStrip t) = false →
        hasBlankMarker (pyStrip t) = true → classify_question t = "填空题".data) ∧
    (∀ t : List Char, hasChoiceMarker (pyStrip t) = false →
        hasBlankMarker (pyStrip t) = false → classify_question t = "解答题".data) := by
  refine ⟨?_, ?_, ?_, ?_⟩
  · intro t
    simp only [classify_question]
    split_ifs <;> simp
  · intro t h
    simp [classify_question, h]
  · intro t h1 h2
    simp [classify_question, h1, h2]
  · intro t h1 h2
    simp [classify_question, h1, h2]

/-- Witness for C7 at the spec's own examples: option labels, a
three-underscore blank without choice markers, and plain prose. -/
theorem C7_classifier_witness :
    classify_question ("A. 甲 B. 乙".data) = "选择题".data ∧
    classify_question ("计算 ___ 的值".data) = "填空题".data ∧
    classify_question ("求证不等式成立".data) = "解答题".data :=
  ⟨C7_classifier.2.1 _ (by decide),
   C7_classifier.2.2.1 _ (by decide) (by decide),
   C7_classifier.2.2.2 _ (by decide) (by decide)⟩

/-- C1 as amended: when primary OCR succeeds its text is used; when it
raises, recognition is retried once under the Latin-only profile and the
retry's text is used; but when the retry also raises, the exception
propagates (the per-page contribution is not replaced by the empty
string), processing of the Document aborts, and the Job ends in status
`error` with the OCR exception as the last log entry. -/
theorem C1_ocr_fallback_amended :
    (∀ (p : PageSpec) (s : List Char), p.ocrPrimary = .ok s → pageOcr p = .ok s) ∧
    (∀ (p : PageSpec) (e s : List Char), p.ocrPrimary = .error e →
        p.ocrFallback = .ok s → pageOcr p = .ok s) ∧
    (∀ (p : PageSpec) (e f : List Char), p.ocrPrimary = .error e →
        p.ocrFallback = .error f → pageOcr p = .error f) ∧
    (∀ (env : Env) (t0 : TaskRec) (p : PageSpec) (e : List Char),
        env.openResult = .ok [p] → pageOcr p = .error e →
        (finalOf env t0).status = "error".data ∧
        (finalOf env t0).log.getLast? = some e) := by
  refine ⟨?_, ?_, ?_, ?_⟩
  · intro p s h
    simp [pageOcr, h]
  · intro p e s h1 h2
    simp [pageOcr, h1, h2]
  · intro p e f h1 h2
    simp [pageOcr, h1, h2]
  · intro env t0 p e ho hocr
    have hex : extract_single_pdf_to_df env.clk env.srcName [p] (procT2 env t0) 1 =
        (.error e, procT2 env t0, [], 1) := by
      simp [extract_single_pdf_to_df, extractLoop, hocr]
    have heq := process_extract_error env t0 [p] e (procT2 env t0) [] 1 ho hex
    constructor
    · show (process_task env t0).1.status = _
      rw [heq]
      rfl
    · show (process_task env t0).1.log.getLast? = _
      rw [heq, failSteps_snd]
      exact getLast_append_one _ _

/-- C1 counterexample: a run whose only failure is OCR (both profiles
raise on the single page) ends with the Job in status `error`, with the
retry's exception propagated into the log; the claim says the
recognized-text contribution would be empty and an OCR failure would
never end the Job in `error`. -/
theorem C1_ocr_counterexample :
    (finalOf envOcrFail tq).status = "error".data ∧
    (finalOf envOcrFail tq).log.getLast? = some ("no eng".data) :=
  ⟨by decide, by decide⟩

/-- Witness for C1 as amended, at concrete pages: a succeeding primary
profile, a failing primary with succeeding retry, and the
`envOcrFail` run where both profiles raise. -/
theorem C1_ocr_fallback_witness :
    pageOcr { nativeText := []
              ocrPrimary := .ok ("早".data)
              ocrFallback := .error ("x".data)
              savedImages := []
              pageImgPath := [] } = .ok ("早".data) ∧
    pageOcr { nativeText := []
              ocrPrimary := .error ("no chi_sim".data)
              ocrFallback := .ok ("latin".data)
              savedImages := []
              pageImgPath := [] } = .ok ("latin".data) ∧
    pageOcr pBothFail = .error ("no eng".data) ∧
    (finalOf envOcrFail tq).status = "error".data :=
  ⟨C1_ocr_fallback_amended.1 _ _ rfl,
   C1_ocr_fallback_amended.2.1 _ _ _ rfl rfl,
   C1_ocr_fallback_amended.2.2.1 _ _ _ rfl rfl,
   (C1_ocr_fallback_amended.2.2.2 envOcrFail tq pBothFail ("no eng".data)
      rfl rfl).1⟩

/-- C10: at submission only the filename is inspected — the registry
outcome is invariant under the uploaded bytes; a filename ending in
`.pdf` (after ASCII lowering) registers a fresh `queued` Job with
percent 0 and no result path and returns its handle; any other filename
is rejected (`none`, the 400 response) with the registry untouched; and
a Job whose stored bytes later fail to open ends in status `error`. -/
theorem C10_upload_filename_only :
    (∀ (reg : List (List Char × TaskRec)) (fn c c' tid : List Char),
        upload_pdf reg fn c tid = upload_pdf reg fn c' tid) ∧
    (∀ (reg : List (List Char × TaskRec)) (fn c tid : List Char),
        endsWithPdf fn = true →
        upload_pdf reg fn c tid = (reg ++ [(tid, initialTask fn)], some tid)) ∧
    (∀ fn : List Char, (initialTask fn).status = "queued".data ∧
        (initialTask fn).percent = 0 ∧ (initialTask fn).file = none) ∧
    (∀ (reg : List (List Char × TaskRec)) (fn c tid : List Char),
        endsWithPdf fn = false → upload_pdf reg fn c tid = (reg, none)) ∧
    (∀ (env : Env) (t0 : TaskRec) (e : List Char), env.openResult = .error e →
        (finalOf env t0).status = "error".data) := by
  refine ⟨fun _ _ _ _ _ => rfl, ?_, fun fn => ⟨rfl, rfl, rfl⟩, ?_, ?_⟩
  · intro reg fn c tid h
    simp [upload_pdf, h]
  · intro reg fn c tid h
    simp [upload_pdf, h]
  · intro env t0 e h
    show (process_task env t0).1.status = _
    rw [process_open_error env t0 e h]
    rfl

/-- Witness for C10: a `.PDF`-named upload is accepted and queued, a
`.txt`-named upload is rejected leaving the registry unchanged, and the
run whose stored bytes cannot be opened ends in `error`. -/
theorem C10_upload_witness :
    upload_pdf [] ("exam.PDF".data) ("notapdf".data) ("id1".data) =
      ([(("id1".data), initialTask ("exam.PDF".data))], some ("id1".data)) ∧
    upload_pdf [] ("exam.txt".data) ("bytes".data) ("id2".data) = ([], none) ∧
    (finalOf envOpenFail tq).status = "error".data :=
  ⟨by
      have h := C10_upload_filename_only.2.1 [] ("exam.PDF".data) ("notapdf".data)
        ("id1".data) (by decide)
      simpa using h,
   C10_upload_filename_only.2.2.2.1 [] ("exam.txt".data) ("bytes".data)
     ("id2".data) (by decide),
   C10_upload_filename_only.2.2.2.2 envOpenFail tq ("boom".data) rfl⟩

theorem findEqsF_nil (fuel : Nat) : findEqsF fuel [] = [] := by
  cases fuel <;> rfl

theorem takeWhile_append_all {p : Char → Bool} (c : Char) (r : List Char)
    (hc : p c = false) :
    ∀ l : List Char, (∀ x ∈ l, p x = true) → (l ++ c :: r).takeWhile p = l := by
  intro l
  induction l with
  | nil =>
    intro _
    simp [List.takeWhile_cons, hc]
  | cons a l ih =>
    intro hl
    have ha : p a = true := hl a (List.mem_cons_self a l)
    simp only [List.cons_append, List.takeWhile_cons, ha, if_true]
    rw [ih (fun x hx => hl x (List.mem_cons_of_mem a hx))]

/-- C8: inline-equation extraction collects the bodies of the spans
delimited by `$...$` or `\( ... \)` in first-match order, keeping
repeats, and in general a well-delimited `$`-span yields exactly its
body. -/
theorem C8_equation_extraction :
    findEqs ("solve $x^2$ and \\(y^2\\)".data) = ["x^2".data, "y^2".data] ∧
    findEqs ("$a$ and $a$".data) = ["a".data, "a".data] ∧
    (∀ body : List Char, body ≠ [] → (∀ c ∈ body, (c != '$') = true) →
        findEqs ('$' :: (body ++ ['$'])) = [body]) := by
  refine ⟨by decide, by decide, ?_⟩
  intro body hne hnd
  have ht : (body ++ '$' :: []).takeWhile (fun c => c != '$') = body :=
    takeWhile_append_all '$' [] (by decide) body hnd
  have hm : eqMatchAt ('$' :: (body ++ ['$'])) = some (body, body.length + 2) := by
    simp only [eqMatchAt, ht]
    rw [if_neg (by simpa using hne)]
    have hd : (body ++ ['$']).drop body.length = ['$'] := List.drop_left body ['$']
    rw [hd]
    rfl
  have hlen : ('$' :: (body ++ ['$'])).length = body.length + 2 := by
    simp
  unfold findEqs
  rw [hlen]
  show findEqsF (body.length + 1 + 1) ('$' :: (body ++ ['$'])) = [body]
  rw [findEqsF, hm]
  dsimp only
  have hdrop : ('$' :: (body ++ ['$'])).drop (body.length + 2) = [] := by
    rw [← hlen]
    exact List.drop_length _
  rw [hdrop, findEqsF_nil]

/-- Witness for C8's general span conjunct at a concrete body. -/
theorem C8_equation_extraction_witness :
    findEqs ('$' :: ("E=mc^2".data ++ ['$'])) = ["E=mc^2".data] :=
  C8_equation_extraction.2.2 ("E=mc^2".data) (by decide) (by decide)

/-- C3 as amended: a Document whose every page yields zero Segments
still completes with status `done` and a recorded artifact path, but
the serialized table is built from an empty row list, and
`pd.DataFrame([])` has no columns at all — the artifact is an empty
sheet, not a header-only table with the six fixed columns; those six
columns appear exactly when at least one Segment exists. -/
theorem C3_empty_document_amended :
    (∀ (env : Env) (t0 : TaskRec) (pages : List PageSpec),
        env.openResult = .ok pages → env.writeResult = .ok () →
        (∀ p ∈ pages, ∃ s, pageOcr p = .ok s ∧ pageSegs p s = []) →
        (finalOf env t0).status = "done".data ∧
        (finalOf env t0).file = some env.outPath ∧
        artifactOf env t0 = some [] ∧
        (artifactOf env t0).map dfColumns = some []) ∧
    (∀ rows : List Row, rows ≠ [] → dfColumns rows = sixColumns) := by
  constructor
  · intro env t0 pages ho hw hsegs
    have hloopres := extractLoop_empty env.clk env.srcName pages.length pages 0 []
      (procT2 env t0) 1 hsegs
    rcases hex : extract_single_pdf_to_df env.clk env.srcName pages (procT2 env t0) 1
      with ⟨res, tf, d, k2⟩
    have hres : res = .ok [] := by
      have := hex
      unfold extract_single_pdf_to_df at this
      rw [this] at hloopres
      exact hloopres.symm ▸ rfl
    subst hres
    have heq := process_done env t0 pages [] tf d k2 ho hex hw
    refine ⟨?_, ?_, ?_, ?_⟩
    · show (process_task env t0).1.status = _
      rw [heq, doneSteps_thd]
    · show (process_task env t0).1.file = _
      rw [heq, doneSteps_thd]
    · show (process_task env t0).2.2 = _
      rw [heq]
    · show ((process_task env t0).2.2).map dfColumns = _
      rw [heq]
      rfl
  · intro rows h
    cases rows with
    | nil => exact absurd rfl h
    | cons r rs => rfl

/-- C3 counterexample: the empty-text one-page run completes `done`,
but its artifact's column list is empty, not the six fixed columns the
claim requires. -/
theorem C3_empty_document_counterexample :
    (finalOf envEmptyDoc tq).status = "done".data ∧
    (artifactOf envEmptyDoc tq).map dfColumns = some [] ∧
    ([] : List (List Char)) ≠ sixColumns :=
  ⟨by decide, by decide, by decide⟩

/-- Witness for C3 as amended at the concrete empty-text run, plus the
six columns on a nonempty row list. -/
theorem C3_empty_document_witness :
    ((finalOf envEmptyDoc tq).status = "done".data ∧
      (finalOf envEmptyDoc tq).file = some (envEmptyDoc.outPath) ∧
      artifactOf envEmptyDoc tq = some [] ∧
      (artifactOf envEmptyDoc tq).map dfColumns = some []) ∧
    dfColumns [{ source_file := "exam.pdf".data
                 page := 1
                 raw_text := "求证".data
                 question_type := "解答题".data
                 inline_equations := []
                 local_images := [] }] = sixColumns :=
  ⟨C3_empty_document_amended.1 envEmptyDoc tq [emptyPage] rfl rfl
      (by
        intro p hp
        have hpe : p = emptyPage := by
          cases hp with
          | head => rfl
          | tail _ h => exact absurd h (List.not_mem_nil p)
        subst hpe
        exact ⟨[], rfl, by decide⟩),
   C3_empty_document_amended.2 _ (by simp)⟩

theorem failSteps_fst_file (t : TaskRec) (e : List Char) :
    (failSteps t e).1.file = t.file := rfl

theorem failSteps_snd_file (t : TaskRec) (e : List Char) :
    (failSteps t e).2.file = t.file := rfl

theorem failSteps_fst_status (t : TaskRec) (e : List Char) :
    (failSteps t e).1.status = "error".data := rfl

theorem failSteps_snd_status (t : TaskRec) (e : List Char) :
    (failSteps t e).2.status = "error".data := rfl

theorem failSteps_fst_percent (t : TaskRec) (e : List Char) :
    (failSteps t e).1.percent = t.percent := rfl

theorem failSteps_snd_percent (t : TaskRec) (e : List Char) :
    (failSteps t e).2.percent = t.percent := rfl

theorem failSteps_fst_log (t : TaskRec) (e : List Char) :
    (failSteps t e).1.log = t.log := rfl

theorem failSteps_snd_log (t : TaskRec) (e : List Char) :
    (failSteps t e).2.log = t.log ++ [e] := rfl

theorem doneSteps_fst_file (env : Env) (tf : TaskRec) (k' : Nat) :
    (doneSteps env tf k').1.file = tf.file := rfl

theorem doneSteps_fst_status (env : Env) (tf : TaskRec) (k' : Nat) :
    (doneSteps env tf k').1.status = "done".data := rfl

theorem doneSteps_fst_percent (env : Env) (tf : TaskRec) (k' : Nat) :
    (doneSteps env tf k').1.percent = tf.percent := rfl

theorem doneSteps_fst_log (env : Env) (tf : TaskRec) (k' : Nat) :
    (doneSteps env tf k').1.log = tf.log := rfl

theorem doneSteps_snd_file (env : Env) (tf : TaskRec) (k' : Nat) :
    (doneSteps env tf k').2.1.file = some env.outPath := rfl

theorem doneSteps_snd_status (env : Env) (tf : TaskRec) (k' : Nat) :
    (doneSteps env tf k').2.1.status = "done".data := rfl

theorem doneSteps_snd_percent (env : Env) (tf : TaskRec) (k' : Nat) :
    (doneSteps env tf k').2.1.percent = tf.percent := rfl

theorem doneSteps_snd_log (env : Env) (tf : TaskRec) (k' : Nat) :
    (doneSteps env tf k').2.1.log = tf.log := rfl

theorem doneSteps_thd_file (env : Env) (tf : TaskRec) (k' : Nat) :
    (doneSteps env tf k').2.2.file = some env.outPath := by
  rw [doneSteps_thd]

theorem doneSteps_thd_status (env : Env) (tf : TaskRec) (k' : Nat) :
    (doneSteps env tf k').2.2.status = "done".data := by
  rw [doneSteps_thd]

theorem doneSteps_thd_percent (env : Env) (tf : TaskRec) (k' : Nat) :
    (doneSteps env tf k').2.2.percent = 100 := by
  rw [doneSteps_thd]

theorem doneSteps_thd_log (env : Env) (tf : TaskRec) (k' : Nat) :
    (doneSteps env tf k').2.2.log =
      tf.log ++ [env.clk k' ++ ' ' :: ("finished processing".data)] := by
  rw [doneSteps_thd]

/-- The page-loop facts, instantiated at the call `process_task`
makes. -/
theorem extract_facts (env : Env) (t0 : TaskRec) (pages : List PageSpec)
    (res : Except (List Char) (List Row)) (tf : TaskRec) (d : List TaskRec) (k2 : Nat)
    (hex : extract_single_pdf_to_df env.clk env.srcName pages (procT2 env t0) 1 =
      (res, tf, d, k2)) :
    tf.status = "processing".data ∧ tf.file = t0.file ∧
    (∀ s ∈ d, s.status = "processing".data ∧ s.file = t0.file) ∧
    List.Chain' LogStep (procT2 env t0 :: d) ∧
    (procT2 env t0 :: d).getLast? = some tf := by
  have h1 := extractLoop_final env.clk env.srcName pages.length pages 0 [] (procT2 env t0) 1
  have h2 := extractLoop_mem env.clk env.srcName pages.length pages 0 [] (procT2 env t0) 1
  have h3 := extractLoop_chain env.clk env.srcName pages.length pages 0 [] (procT2 env t0) 1
  have h4 := extractLoop_getLast env.clk env.srcName pages.length pages 0 [] (procT2 env t0) 1
  unfold extract_single_pdf_to_df at hex
  rw [hex] at h1 h2 h3 h4
  dsimp only at h1 h2 h3 h4
  rw [procT2_status env t0, procT2_file env t0] at h1 h2
  refine ⟨h1.1, h1.2, h2, h3, h4⟩

/-- C5 as amended: at every point of a run started from a queued record
with no result path, a non-null result path implies status `done`, and
the final state satisfies the full correspondence (`done` ends with the
artifact path recorded, any non-null path means `done`, `error` ends
with a null path); only the instant between the `done` transition and
the path assignment violates the claimed "if and only if". -/
theorem C5_result_path_amended :
    ∀ (env : Env) (t0 : TaskRec), t0.status = "queued".data → t0.file = none →
      (∀ s ∈ historyOf env t0, s.file ≠ none → s.status = "done".data) ∧
      ((finalOf env t0).status = "done".data →
        (finalOf env t0).file = some env.outPath) ∧
      ((finalOf env t0).file ≠ none → (finalOf env t0).status = "done".data) ∧
      ((finalOf env t0).status = "error".data → (finalOf env t0).file = none) := by
  intro env t0 hq hf
  rcases process_cases env t0 with ⟨e, ho⟩ | ⟨pages, e, tf, d, k2, ho, hex⟩ |
    ⟨pages, rows, e, tf, d, k2, ho, hex, hw⟩ | ⟨pages, rows, tf, d, k2, ho, hex, hw⟩
  · have heq := process_open_error env t0 e ho
    unfold historyOf finalOf
    rw [heq]
    refine ⟨?_, ?_, ?_, ?_⟩
    · intro s hs hsf
      simp only [List.mem_cons, List.not_mem_nil, or_false] at hs
      rcases hs with rfl | rfl | rfl | rfl | rfl
      · exact absurd hf hsf
      · exact absurd ((procT1_file t0).trans hf) hsf
      · exact absurd ((procT2_file env t0).trans hf) hsf
      · exact absurd (((failSteps_fst_file _ e).trans (procT2_file env t0)).trans hf) hsf
      · exact absurd (((failSteps_snd_file _ e).trans (procT2_file env t0)).trans hf) hsf
    · intro h
      rw [failSteps_snd_status] at h
      exact absurd h (by decide)
    · intro h
      exact absurd (((failSteps_snd_file _ e).trans (procT2_file env t0)).trans hf) h
    · intro _
      exact ((failSteps_snd_file _ e).trans (procT2_file env t0)).trans hf
  · obtain ⟨htfs, htff, hdmem, _, _⟩ := extract_facts env t0 pages _ tf d k2 hex
    have heq := process_extract_error env t0 pages e tf d k2 ho hex
    unfold historyOf finalOf
    rw [heq]
    refine ⟨?_, ?_, ?_, ?_⟩
    · intro s hs hsf
      simp only [List.cons_append, List.mem_cons, List.mem_append,
        List.not_mem_nil, or_false] at hs
      rcases hs with rfl | rfl | rfl | hd | rfl | rfl
      · exact absurd hf hsf
      · exact absurd ((procT1_file t0).trans hf) hsf
      · exact absurd ((procT2_file env t0).trans hf) hsf
      · exact absurd ((hdmem s (hd.resolve_left id)).2.trans hf) hsf
      · exact absurd (((failSteps_fst_file tf e).trans htff).trans hf) hsf
      · exact absurd (((failSteps_snd_file tf e).trans htff).trans hf) hsf
    · intro h
      rw [failSteps_snd_status] at h
      exact absurd h (by decide)
    · intro h
      exact absurd (((failSteps_snd_file tf e).trans htff).trans hf) h
    · intro _
      exact ((failSteps_snd_file tf e).trans htff).trans hf
  · obtain ⟨htfs, htff, hdmem, _, _⟩ := extract_facts env t0 pages _ tf d k2 hex
    have heq := process_write_error env t0 pages rows e tf d k2 ho hex hw
    unfold historyOf finalOf
    rw [heq]
    refine ⟨?_, ?_, ?_, ?_⟩
    · intro s hs hsf
      simp only [List.cons_append, List.mem_cons, List.mem_append,
        List.not_mem_nil, or_false] at hs
      rcases hs with rfl | rfl | rfl | hd | rfl | rfl
      · exact absurd hf hsf
      · exact absurd ((procT1_file t0).trans hf) hsf
      · exact absurd ((procT2_file env t0).trans hf) hsf
      · exact absurd ((hdmem s (hd.resolve_left id)).2.trans hf) hsf
      · exact absurd (((failSteps_fst_file tf e).trans htff).trans hf) hsf
      · exact absurd (((failSteps_snd_file tf e).trans htff).trans hf) hsf
    · intro h
      rw [failSteps_snd_status] at h
      exact absurd h (by decide)
    · intro h
      exact absurd (((failSteps_snd_file tf e).trans htff).trans hf) h
    · intro _
      exact ((failSteps_snd_file tf e).trans htff).trans hf
  · obtain ⟨htfs, htff, hdmem, _, _⟩ := extract_facts env t0 pages _ tf d k2 hex
    have heq := process_done env t0 pages rows tf d k2 ho hex hw
    unfold historyOf finalOf
    rw [heq]
    refine ⟨?_, ?_, ?_, ?_⟩
    · intro s hs hsf
      simp only [List.cons_append, List.mem_cons, List.mem_append,
        List.not_mem_nil, or_false] at hs
      rcases hs with rfl | rfl | rfl | hd | rfl | rfl | rfl
      · exact absurd hf hsf
      · exact absurd ((procT1_file t0).trans hf) hsf
      · exact absurd ((procT2_file env t0).trans hf) hsf
      · exact absurd ((hdmem s (hd.resolve_left id)).2.trans hf) hsf
      · exact absurd (((doneSteps_fst_file env tf k2).trans htff).trans hf) hsf
      · exact doneSteps_snd_status env tf k2
      · exact doneSteps_thd_status env tf k2
    · intro _
      exact doneSteps_thd_file env tf k2
    · intro _
      exact doneSteps_thd_status env tf k2
    · intro h
      rw [doneSteps_thd_status] at h
      exact absurd h (by decide)

/-- Gluing a run's history chain from its three parts: the two starting
mutations, the page-loop trace, and the terminal tail. -/
theorem chain_history_general {S : TaskRec → TaskRec → Prop} (env : Env)
    (t0 tf : TaskRec) (d tail : List TaskRec)
    (h01 : S t0 (procT1 t0)) (h12 : S (procT1 t0) (procT2 env t0))
    (hch : List.Chain' S (procT2 env t0 :: d))
    (hlast : (procT2 env t0 :: d).getLast? = some tf)
    (htail : List.Chain' S (tf :: tail)) :
    List.Chain' S (t0 :: procT1 t0 :: procT2 env t0 :: (d ++ tail)) := by
  refine List.chain'_cons.mpr ⟨h01, List.chain'_cons.mpr ⟨h12, ?_⟩⟩
  show List.Chain' S ((procT2 env t0 :: d) ++ tail)
  obtain ⟨hglue, htl⟩ := List.chain'_cons'.mp htail
  refine List.chain'_append.mpr ⟨hch, htl, ?_⟩
  intro x hx y hy
  rw [Option.mem_def, hlast] at hx
  cases hx
  exact hglue y hy

theorem chain_failTail_log (tf : TaskRec) (e : List Char) :
    List.Chain' LogStep (tf :: [(failSteps tf e).1, (failSteps tf e).2]) := by
  refine List.chain'_cons.mpr ⟨⟨[], ?_⟩,
    List.chain'_cons.mpr ⟨⟨[e], ?_⟩, List.chain'_singleton _⟩⟩
  · rw [failSteps_fst_log, List.append_nil]
  · rw [failSteps_snd_log, failSteps_fst_log]

theorem chain_doneTail_log (env : Env) (tf : TaskRec) (k' : Nat) :
    List.Chain' LogStep (tf :: [(doneSteps env tf k').1,
      (doneSteps env tf k').2.1, (doneSteps env tf k').2.2]) := by
  refine List.chain'_cons.mpr ⟨⟨[], ?_⟩, List.chain'_cons.mpr ⟨⟨[], ?_⟩,
    List.chain'_cons.mpr
      ⟨⟨[env.clk k' ++ ' ' :: ("finished processing".data)], ?_⟩,
        List.chain'_singleton _⟩⟩⟩
  · rw [doneSteps_fst_log, List.append_nil]
  · rw [doneSteps_snd_log, doneSteps_fst_log, List.append_nil]
  · rw [doneSteps_thd_log, doneSteps_snd_log]

/-- C9 as amended: the log is append-only across every state a run ever
exposes; the entries appended by progress updates are timestamped (the
clock reading, a space, the message); but the entry appended on the
transition to `error` is the bare string form of the exception, and the
initial `uploaded ...` entry is likewise untimestamped. -/
theorem C9_log_append_only_amended :
    ∀ (env : Env) (t0 : TaskRec),
      List.Chain' LogStep (historyOf env t0) ∧
      (∀ (t : TaskRec) (p : Option Int) (m ts : List Char), ¬ m.isEmpty = true →
        (update_progress t p (some m) ts).log = t.log ++ [ts ++ ' ' :: m]) ∧
      (∀ e : List Char, env.openResult = .error e →
        (finalOf env t0).log =
          t0.log ++ [env.clk 0 ++ ' ' :: ("start processing".data), e]) := by
  intro env t0
  refine ⟨?_, ?_, ?_⟩
  · have h01 : LogStep t0 (procT1 t0) := ⟨[], by rw [procT1_log, List.append_nil]⟩
    have h12 : LogStep (procT1 t0) (procT2 env t0) := update_progress_log _ _ _ _
    rcases process_cases env t0 with ⟨e, ho⟩ | ⟨pages, e, tf, d, k2, ho, hex⟩ |
      ⟨pages, rows, e, tf, d, k2, ho, hex, hw⟩ | ⟨pages, rows, tf, d, k2, ho, hex, hw⟩
    · have heq := process_open_error env t0 e ho
      unfold historyOf
      rw [heq]
      exact chain_history_general env t0 (procT2 env t0) [] _ h01 h12
        (List.chain'_singleton _) rfl (chain_failTail_log _ e)
    · obtain ⟨_, _, _, hch, hlast⟩ := extract_facts env t0 pages _ tf d k2 hex
      have heq := process_extract_error env t0 pages e tf d k2 ho hex
      unfold historyOf
      rw [heq]
      exact chain_history_general env t0 tf d _ h01 h12 hch hlast
        (chain_failTail_log tf e)
    · obtain ⟨_, _, _, hch, hlast⟩ := extract_facts env t0 pages _ tf d k2 hex
      have heq := process_write_error env t0 pages rows e tf d k2 ho hex hw
      unfold historyOf
      rw [heq]
      exact chain_history_general env t0 tf d _ h01 h12 hch hlast
        (chain_failTail_log tf e)
    · obtain ⟨_, _, _, hch, hlast⟩ := extract_facts env t0 pages _ tf d k2 hex
      have heq := process_done env t0 pages rows tf d k2 ho hex hw
      unfold historyOf
      rw [heq]
      exact chain_history_general env t0 tf d _ h01 h12 hch hlast
        (chain_doneTail_log env tf k2)
  · intro t p m ts hm
    exact update_progress_log_msg t p m ts hm
  · intro e ho
    have heq := process_open_error env t0 e ho
    show (process_task env t0).1.log = _
    rw [heq, failSteps_snd_log, procT2_log, List.append_assoc]
    rfl

/-- C9 counterexample: with a constant clock reading `TS`, the run that
fails to open ends with the log `[uploaded exam.pdf, TS start
processing, boom]`: the terminal `error` entry (and the initial upload
entry) do not carry the `TS `-prefixed timestamp form the progress
entries carry, refuting "every entry ever appended is a timestamped
message". -/
theorem C9_log_counterexample :
    (finalOf envOpenFail tq).log =
      ["uploaded exam.pdf".data, "TS start processing".data, "boom".data] ∧
    (∀ m : List Char, "boom".data ≠ "TS ".data ++ m) ∧
    (∀ m : List Char, "uploaded exam.pdf".data ≠ "TS ".data ++ m) :=
  ⟨by decide,
   fun m h => by
     injection h with h1 _
     exact absurd h1 (by decide),
   fun m h => by
     injection h with h1 _
     exact absurd h1 (by decide)⟩

/-- Witness for C9 as amended at the failing-open run: the log chain,
a concrete timestamped progress entry, and the verbatim error entry. -/
theorem C9_log_append_only_witness :
    List.Chain' LogStep (historyOf envOpenFail tq) ∧
    (update_progress tq (some 1) (some ("start processing".data)) ("TS".data)).log =
      tq.log ++ ["TS".data ++ ' ' :: ("start processing".data)] ∧
    (finalOf envOpenFail tq).log =
      tq.log ++ [envOpenFail.clk 0 ++ ' ' :: ("start processing".data), "boom".data] :=
  ⟨(C9_log_append_only_amended envOpenFail tq).1,
   (C9_log_append_only_amended envOpenFail tq).2.1 tq (some 1) _ _ (by decide),
   (C9_log_append_only_amended envOpenFail tq).2.2 ("boom".data) rfl⟩

theorem chain'_of_mem {α : Type} {R S : α → α → Prop} {P : α → Prop} {l : List α}
    (h : List.Chain' R l) (hm : ∀ a ∈ l, P a)
    (himp : ∀ a b, R a b → P a → P b → S a b) : List.Chain' S l := by
  induction l with
  | nil => exact List.chain'_nil
  | cons a l ih =>
    cases l with
    | nil => exact List.chain'_singleton a
    | cons b r =>
      obtain ⟨hab, hrest⟩ := List.chain'_cons.mp h
      refine List.chain'_cons.mpr ⟨?_, ?_⟩
      · exact himp a b hab (hm a (List.mem_cons_self a _))
          (hm b (List.mem_cons_of_mem a (List.mem_cons_self b _)))
      · exact ih hrest (fun x hx => hm x (List.mem_cons_of_mem a hx))

theorem not_error_of_processing {t : TaskRec} (h : t.status = "processing".data) :
    t.status ≠ "error".data := by
  rw [h]
  decide

theorem not_done_of_processing {t : TaskRec} (h : t.status = "processing".data) :
    t.status ≠ "done".data := by
  rw [h]
  decide

theorem taskStep_failTail (tf : TaskRec) (e : List Char)
    (htf : tf.status = "processing".data) :
    List.Chain' taskStep (tf :: [(failSteps tf e).1, (failSteps tf e).2]) := by
  refine List.chain'_cons.mpr ⟨?_, List.chain'_cons.mpr ⟨?_, List.chain'_singleton _⟩⟩
  · refine ⟨Or.inr (Or.inr ⟨htf, Or.inr (failSteps_fst_status tf e)⟩), ?_, ?_⟩
    · intro h
      exact absurd h (not_error_of_processing htf)
    · intro h
      exact absurd h (not_done_of_processing htf)
  · refine ⟨Or.inl ((failSteps_fst_status tf e).trans
      (failSteps_snd_status tf e).symm), ?_, ?_⟩
    · intro _
      exact ⟨failSteps_snd_status tf e,
        (failSteps_snd_percent tf e).trans (failSteps_fst_percent tf e).symm,
        (failSteps_snd_file tf e).trans (failSteps_fst_file tf e).symm,
        ⟨[e], by rw [failSteps_snd_log, failSteps_fst_log]⟩⟩
    · intro h
      rw [failSteps_fst_status] at h
      exact absurd h (by decide)

theorem taskStep_doneTail (env : Env) (tf : TaskRec) (k' : Nat)
    (htf : tf.status = "processing".data) :
    List.Chain' taskStep (tf :: [(doneSteps env tf k').1,
      (doneSteps env tf k').2.1, (doneSteps env tf k').2.2]) := by
  refine List.chain'_cons.mpr ⟨?_, List.chain'_cons.mpr ⟨?_,
    List.chain'_cons.mpr ⟨?_, List.chain'_singleton _⟩⟩⟩
  · refine ⟨Or.inr (Or.inr ⟨htf, Or.inl (doneSteps_fst_status env tf k')⟩), ?_, ?_⟩
    · intro h
      exact absurd h (not_error_of_processing htf)
    · intro h
      exact absurd h (not_done_of_processing htf)
  · refine ⟨Or.inl ((doneSteps_fst_status env tf k').trans
      (doneSteps_snd_status env tf k').symm), ?_, ?_⟩
    · intro h
      rw [doneSteps_fst_status] at h
      exact absurd h (by decide)
    · intro _
      exact ⟨doneSteps_snd_status env tf k',
        ⟨[], by rw [doneSteps_snd_log, doneSteps_fst_log, List.append_nil]⟩⟩
  · refine ⟨Or.inl ((doneSteps_snd_status env tf k').trans
      (doneSteps_thd_status env tf k').symm), ?_, ?_⟩
    · intro h
      rw [doneSteps_snd_status] at h
      exact absurd h (by decide)
    · intro _
      exact ⟨doneSteps_thd_status env tf k',
        ⟨[env.clk k' ++ ' ' :: ("finished processing".data)],
          by rw [doneSteps_thd_log, doneSteps_snd_log]⟩⟩

/-- C4 as amended: from a queued record, every pair of successive
states of a run makes a legal transition `queued → processing →
{done | error}` (never leaving `done` or `error`); after `error` only
the log changes; after `done` the status stays `done` and the log only
grows — but the completion step, having set status `done`, does still
record the artifact path and set percent to 100 (see the
counterexample), so `done` is not field-immutable. -/
theorem C4_status_machine_amended :
    ∀ (env : Env) (t0 : TaskRec), t0.status = "queued".data →
      List.Chain' taskStep (historyOf env t0) := by
  intro env t0 hq
  have h01 : taskStep t0 (procT1 t0) := by
    refine ⟨Or.inr (Or.inl ⟨hq, procT1_status t0⟩), ?_, ?_⟩
    · intro h
      rw [hq] at h
      exact absurd h (by decide)
    · intro h
      rw [hq] at h
      exact absurd h (by decide)
  have h12 : taskStep (procT1 t0) (procT2 env t0) := by
    refine ⟨Or.inl ((procT1_status t0).trans (procT2_status env t0).symm), ?_, ?_⟩
    · intro h
      exact absurd h (not_error_of_processing (procT1_status t0))
    · intro h
      exact absurd h (not_done_of_processing (procT1_status t0))
  have hmid : ∀ (pages : List PageSpec) (res : Except (List Char) (List Row))
      (tf : TaskRec) (d : List TaskRec) (k2 : Nat),
      extract_single_pdf_to_df env.clk env.srcName pages (procT2 env t0) 1 =
        (res, tf, d, k2) →
      List.Chain' taskStep (procT2 env t0 :: d) := by
    intro pages res tf d k2 hex
    obtain ⟨_, _, hdmem, hch, _⟩ := extract_facts env t0 pages _ tf d k2 hex
    refine chain'_of_mem (P := fun s => s.status = "processing".data) hch ?_ ?_
    · intro a ha
      rcases List.mem_cons.mp ha with rfl | ha
      · exact procT2_status env t0
      · exact (hdmem a ha).1
    · intro a b hab hpa hpb
      refine ⟨Or.inl (hpa.trans hpb.symm), ?_, ?_⟩
      · intro h
        exact absurd h (not_error_of_processing hpa)
      · intro h
        exact absurd h (not_done_of_processing hpa)
  rcases process_cases env t0 with ⟨e, ho⟩ | ⟨pages, e, tf, d, k2, ho, hex⟩ |
    ⟨pages, rows, e, tf, d, k2, ho, hex, hw⟩ | ⟨pages, rows, tf, d, k2, ho, hex, hw⟩
  · have heq := process_open_error env t0 e ho
    unfold historyOf
    rw [heq]
    exact chain_history_general env t0 (procT2 env t0) [] _ h01 h12
      (List.chain'_singleton _) rfl (taskStep_failTail _ e (procT2_status env t0))
  · obtain ⟨htfs, _, _, _, hlast⟩ := extract_facts env t0 pages _ tf d k2 hex
    have heq := process_extract_error env t0 pages e tf d k2 ho hex
    unfold historyOf
    rw [heq]
    exact chain_history_general env t0 tf d _ h01 h12
      (hmid pages _ tf d k2 hex) hlast (taskStep_failTail tf e htfs)
  · obtain ⟨htfs, _, _, _, hlast⟩ := extract_facts env t0 pages _ tf d k2 hex
    have heq := process_write_error env t0 pages rows e tf d k2 ho hex hw
    unfold historyOf
    rw [heq]
    exact chain_history_general env t0 tf d _ h01 h12
      (hmid pages _ tf d k2 hex) hlast (taskStep_failTail tf e htfs)
  · obtain ⟨htfs, _, _, _, hlast⟩ := extract_facts env t0 pages _ tf d k2 hex
    have heq := process_done env t0 pages rows tf d k2 ho hex hw
    unfold historyOf
    rw [heq]
    exact chain_history_general env t0 tf d _ h01 h12
      (hmid pages _ tf d k2 hex) hlast (taskStep_doneTail env tf k2 htfs)

/-- C4 counterexample: in the empty-document run, the state right after
the `done` transition still has a null path, and the next state — with
status already `done` — has the path filled in: a field other than the
log of a terminal Job is modified afterwards, refuting the claimed
terminal immutability. -/
theorem C4_status_machine_counterexample :
    ((historyOf envEmptyDoc tq)[4]?).map (fun s => (s.status, s.file)) =
      some ("done".data, none) ∧
    ((historyOf envEmptyDoc tq)[5]?).map (fun s => (s.status, s.file)) =
      some ("done".data, some ("result_1.xlsx".data)) :=
  ⟨by decide, by decide⟩

/-- Witness for C4 as amended at the empty-document run. -/
theorem C4_status_machine_witness :
    List.Chain' taskStep (historyOf envEmptyDoc tq) :=
  C4_status_machine_amended envEmptyDoc tq rfl

theorem extractLoop_len_le (clk : Nat → List Char) (src : List Char) (total : Nat) :
    ∀ (ps : List PageSpec) (pno : Nat) (rows : List Row) (t : TaskRec) (k : Nat),
      (extractLoop clk src total ps pno rows t k).2.2.1.length ≤ ps.length := by
  intro ps
  induction ps with
  | nil => intro pno rows t k; exact Nat.le_refl 0
  | cons p ps ih =>
    intro pno rows t k
    simp only [extractLoop]
    cases hocr : pageOcr p with
    | error e => simp
    | ok o =>
      dsimp only
      rw [List.length_cons, List.length_cons]
      exact Nat.succ_le_succ (ih _ _ _ _)

theorem filter_processing_shape (env : Env) (t0 : TaskRec) (d tail : List TaskRec)
    (hq : t0.status = "queued".data)
    (hd : ∀ s ∈ d, s.status = "processing".data)
    (htail : ∀ s ∈ tail, (s.status == "processing".data) = false) :
    percentsWhileProcessing (t0 :: procT1 t0 :: procT2 env t0 :: (d ++ tail)) =
      t0.percent :: 1 :: d.map (fun s => s.percent) := by
  unfold percentsWhileProcessing
  rw [List.filter_cons_of_neg (by rw [hq]; decide),
    List.filter_cons_of_pos (by rw [procT1_status]; decide),
    List.filter_cons_of_pos (by rw [procT2_status]; decide),
    List.filter_append,
    List.filter_eq_self.mpr (fun a ha => by rw [hd a ha]; decide),
    show tail.filter (fun t => t.status == ("processing".data)) = [] from
      List.filter_eq_nil_iff.mpr (fun a ha => by rw [htail a ha]; exact Bool.false_ne_true),
    List.append_nil, List.map_cons, List.map_cons, procT1_percent, procT2_percent]

theorem chain_le_formula (total n : Nat) (hle : n ≤ total) (h100 : total ≤ 100) :
    List.Chain' (fun a b => a ≤ b)
      ((0 : Int) :: 1 :: (List.range n).map (pctOf total)) := by
  refine List.chain'_cons.mpr ⟨by norm_num, List.chain'_cons'.mpr ⟨?_, ?_⟩⟩
  · intro y hy
    cases n with
    | zero => exact absurd hy (by simp)
    | succ m =>
      rw [List.range_succ_eq_map, List.map_cons, List.head?_cons,
        Option.mem_def, Option.some.injEq] at hy
      subst hy
      show (1 : Int) ≤ pctOf total 0
      unfold pctOf
      have h0 : 0 < total := by omega
      have h1 : (1 : Nat) ≤ (0 + 1) * 100 / total := by
        rw [Nat.zero_add, Nat.one_mul]
        exact (Nat.one_le_div_iff h0).mpr h100
      exact_mod_cast h1
  · rw [List.chain'_map]
    cases n with
    | zero => simp
    | succ m =>
      rw [List.chain'_range_succ]
      intro j hj
      unfold pctOf
      have hmul : (j + 1) * 100 ≤ (j + 1 + 1) * 100 :=
        Nat.mul_le_mul_right 100 (by omega)
      exact_mod_cast Nat.div_le_div_right hmul

/-- C2 as amended: for a Document the run opens, each per-page update
sets percent to `floor(pagesDone×100/pagesTotal)`, these per-page
values are non-decreasing among themselves, and a successful run ends
with percent 100; the whole processing-phase percent sequence
(starting from the 1 set when processing begins) is non-decreasing for
Documents of at most 100 pages — for more than 100 pages the first
per-page value `floor(100/total) = 0` drops below the initial 1 (see
the counterexample). -/
theorem C2_percent_amended :
    ∀ (env : Env) (t0 : TaskRec) (pages : List PageSpec),
      t0.status = "queued".data → t0.percent = 0 → env.openResult = .ok pages →
      (pages.length ≤ 100 →
        List.Chain' (fun a b => a ≤ b)
          (percentsWhileProcessing (historyOf env t0))) ∧
      ((finalOf env t0).status = "done".data → (finalOf env t0).percent = 100) ∧
      (∀ (rows : List Row) (tf : TaskRec) (d : List TaskRec) (k2 : Nat),
        extract_single_pdf_to_df env.clk env.srcName pages (procT2 env t0) 1 =
          (.ok rows, tf, d, k2) →
        d.map (fun s => s.percent) =
          (List.range pages.length).map (pctOf pages.length)) := by
  intro env t0 pages hq hp0 ho
  have hdmap : ∀ (res : Except (List Char) (List Row)) (tf : TaskRec)
      (d : List TaskRec) (k2 : Nat),
      extract_single_pdf_to_df env.clk env.srcName pages (procT2 env t0) 1 =
        (res, tf, d, k2) →
      d.map (fun s => s.percent) = (List.range d.length).map (pctOf pages.length) := by
    intro res tf d k2 hex
    have hp := extractLoop_percents env.clk env.srcName pages.length pages 0 []
      (procT2 env t0) 1
    unfold extract_single_pdf_to_df at hex
    rw [hex] at hp
    dsimp only at hp
    rw [hp]
    refine List.map_congr_left ?_
    intro i _
    unfold pctOf
    congr 2
    omega
  have hdlen : ∀ (res : Except (List Char) (List Row)) (tf : TaskRec)
      (d : List TaskRec) (k2 : Nat),
      extract_single_pdf_to_df env.clk env.srcName pages (procT2 env t0) 1 =
        (res, tf, d, k2) →
      d.length ≤ pages.length := by
    intro res tf d k2 hex
    have hl := extractLoop_len_le env.clk env.srcName pages.length pages 0 []
      (procT2 env t0) 1
    unfold extract_single_pdf_to_df at hex
    rw [hex] at hl
    exact hl
  refine ⟨?_, ?_, ?_⟩
  · intro h100
    rcases process_cases env t0 with ⟨e, ho'⟩ | ⟨pages', e, tf, d, k2, ho', hex⟩ |
      ⟨pages', rows, e, tf, d, k2, ho', hex, hw⟩ |
      ⟨pages', rows, tf, d, k2, ho', hex, hw⟩
    · rw [ho] at ho'
      exact absurd ho' (by simp)
    · have hpp : pages = pages' := Except.ok.inj (ho.symm.trans ho')
      subst hpp
      obtain ⟨_, _, hdmem, _, _⟩ := extract_facts env t0 pages _ tf d k2 hex
      have heq := process_extract_error env t0 pages e tf d k2 ho hex
      unfold historyOf
      rw [heq]
      show List.Chain' (fun a b => a ≤ b)
        (percentsWhileProcessing
          (t0 :: procT1 t0 :: procT2 env t0 ::
            (d ++ [(failSteps tf e).1, (failSteps tf e).2])))
      rw [filter_processing_shape env t0 d _ hq (fun s hs => (hdmem s hs).1) ?side]
      case side =>
        intro s hs
        rcases List.mem_cons.mp hs with rfl | hs
        · rw [failSteps_fst_status]
          decide
        · rcases List.mem_cons.mp hs with rfl | hs
          · rw [failSteps_snd_status]
            decide
          · exact absurd hs (List.not_mem_nil s)
      rw [hp0, hdmap _ tf d k2 hex]
      exact chain_le_formula pages.length d.length (hdlen _ tf d k2 hex) h100
    · have hpp : pages = pages' := Except.ok.inj (ho.symm.trans ho')
      subst hpp
      obtain ⟨_, _, hdmem, _, _⟩ := extract_facts env t0 pages _ tf d k2 hex
      have heq := process_write_error env t0 pages rows e tf d k2 ho hex hw
      unfold historyOf
      rw [heq]
      show List.Chain' (fun a b => a ≤ b)
        (percentsWhileProcessing
          (t0 :: procT1 t0 :: procT2 env t0 ::
            (d ++ [(failSteps tf e).1, (failSteps tf e).2])))
      rw [filter_processing_shape env t0 d _ hq (fun s hs => (hdmem s hs).1) ?side2]
      case side2 =>
        intro s hs
        rcases List.mem_cons.mp hs with rfl | hs
        · rw [failSteps_fst_status]
          decide
        · rcases List.mem_cons.mp hs with rfl | hs
          · rw [failSteps_snd_status]
            decide
          · exact absurd hs (List.not_mem_nil s)
      rw [hp0, hdmap _ tf d k2 hex]
      exact chain_le_formula pages.length d.length (hdlen _ tf d k2 hex) h100
    · have hpp : pages = pages' := Except.ok.inj (ho.symm.trans ho')
      subst hpp
      obtain ⟨_, _, hdmem, _, _⟩ := extract_facts env t0 pages _ tf d k2 hex
      have heq := process_done env t0 pages rows tf d k2 ho hex hw
      unfold historyOf
      rw [heq]
      show List.Chain' (fun a b => a ≤ b)
        (percentsWhileProcessing
          (t0 :: procT1 t0 :: procT2 env t0 ::
            (d ++ [(doneSteps env tf k2).1, (doneSteps env tf k2).2.1,
              (doneSteps env tf k2).2.2])))
      rw [filter_processing_shape env t0 d _ hq (fun s hs => (hdmem s hs).1) ?side3]
      case side3 =>
        intro s hs
        rcases List.mem_cons.mp hs with rfl | hs
        · rw [doneSteps_fst_status]
          decide
        · rcases List.mem_cons.mp hs with rfl | hs
          · rw [doneSteps_snd_status]
            decide
          · rcases List.mem_cons.mp hs with rfl | hs
            · rw [doneSteps_thd_status]
              decide
            · exact absurd hs (List.not_mem_nil s)
      rw [hp0, hdmap _ tf d k2 hex]
      exact chain_le_formula pages.length d.length (hdlen _ tf d k2 hex) h100
  · intro hdone
    rcases process_cases env t0 with ⟨e, ho'⟩ | ⟨pages', e, tf, d, k2, ho', hex⟩ |
      ⟨pages', rows, e, tf, d, k2, ho', hex, hw⟩ |
      ⟨pages', rows, tf, d, k2, ho', hex, hw⟩
    · rw [ho] at ho'
      exact absurd ho' (by simp)
    · have heq := process_extract_error env t0 pages' e tf d k2 ho' hex
      unfold finalOf at hdone ⊢
      rw [heq] at hdone
      rw [failSteps_snd_status] at hdone
      exact absurd hdone (by decide)
    · have heq := process_write_error env t0 pages' rows e tf d k2 ho' hex hw
      unfold finalOf at hdone ⊢
      rw [heq] at hdone
      rw [failSteps_snd_status] at hdone
      exact absurd hdone (by decide)
    · have heq := process_done env t0 pages' rows tf d k2 ho' hex hw
      unfold finalOf
      rw [heq]
      exact doneSteps_thd_percent env tf k2
  · intro rows tf d k2 hex
    have hex' := hex
    unfold extract_single_pdf_to_df at hex'
    have hlen := extractLoop_len env.clk env.srcName pages.length pages 0 []
      (procT2 env t0) 1 rows (by rw [hex'])
    rw [hex'] at hlen
    dsimp only at hlen
    rw [hdmap _ tf d k2 hex, hlen]

/-- C2 counterexample: for a 101-page document the processing-phase
percent sequence starts `…, 1, 0, …` — the start update sets 1, the
first per-page update sets `int(1/101*100) = 0` — so the sequence is
not non-decreasing, refuting "this holds for every page count". -/
theorem C2_percent_counterexample :
    tq.status = "queued".data ∧ tq.percent = 0 ∧
    envBig.openResult = .ok (List.replicate 101 emptyPage) ∧
    (percentsWhileProcessing (historyOf envBig tq))[1]? = some 1 ∧
    (percentsWhileProcessing (historyOf envBig tq))[2]? = some 0 ∧
    ¬ List.Chain' (fun a b => a ≤ b) (percentsWhileProcessing (historyOf envBig tq)) :=
  ⟨rfl, rfl, rfl, by decide, by decide, by
    rw [← nondecreasing_iff_chain]
    decide⟩

/-- Witness for C2 as amended at the one-page empty document: the full
processing-phase percent sequence is non-decreasing and the final
percent is 100. -/
theorem C2_percent_witness :
    List.Chain' (fun a b => a ≤ b)
      (percentsWhileProcessing (historyOf envEmptyDoc tq)) ∧
    (finalOf envEmptyDoc tq).percent = 100 :=
  ⟨(C2_percent_amended envEmptyDoc tq [emptyPage] rfl rfl rfl).1 (by decide),
   (C2_percent_amended envEmptyDoc tq [emptyPage] rfl rfl rfl).2.1 (by decide)⟩

theorem dropWhile_dropWhile (p : Char → Bool) (l : List Char) :
    (l.dropWhile p).dropWhile p = l.dropWhile p := by
  induction l with
  | nil => rfl
  | cons a l ih =>
    rw [List.dropWhile_cons]
    split
    · exact ih
    · rename_i h
      rw [List.dropWhile_cons, if_neg h]

theorem dropWhile_eq_self_of_head (p : Char → Bool) (l : List Char)
    (h : ∀ c, l.head? = some c → p c = false) : l.dropWhile p = l := by
  cases l with
  | nil => rfl
  | cons a l =>
    rw [List.dropWhile_cons, if_neg]
    simp [h a rfl]

theorem pyStrip_head_not_space (t : List Char) (c : Char)
    (hc : (pyStrip t).head? = some c) : isSpaceChar c = false := by
  unfold pyStrip at hc
  rw [List.head?_reverse] at hc
  have hw_ne : (t.dropWhile isSpaceChar).reverse.dropWhile isSpaceChar ≠ [] := by
    intro hnil
    rw [hnil] at hc
    exact Option.noConfusion hc
  obtain ⟨pre, hpre⟩ :=
    List.dropWhile_suffix (l := (t.dropWhile isSpaceChar).reverse) isSpaceChar
  have hlast : ((t.dropWhile isSpaceChar).reverse).getLast? = some c := by
    rw [← hpre, List.getLast?_append_of_ne_nil _ hw_ne]
    exact hc
  rw [List.getLast?_reverse] at hlast
  have hh := List.head?_dropWhile_not isSpaceChar t
  rw [hlast] at hh
  simpa using hh

theorem pyStrip_idem (t : List Char) : pyStrip (pyStrip t) = pyStrip t := by
  show ((((pyStrip t).dropWhile isSpaceChar).reverse).dropWhile isSpaceChar).reverse
    = pyStrip t
  rw [dropWhile_eq_self_of_head _ _ (pyStrip_head_not_space t)]
  show ((((t.dropWhile isSpaceChar).reverse.dropWhile
    isSpaceChar).reverse).reverse.dropWhile isSpaceChar).reverse = _
  rw [List.reverse_reverse, dropWhile_dropWhile]
  rfl

theorem reSplitF_no_marker : ∀ (fuel : Nat) (t : List Char) (ls : Bool),
    t.length ≤ fuel → hasMarkerFrom t ls = false → reSplitF fuel t ls = [t] := by
  intro fuel
  induction fuel with
  | zero => intro t ls _ _; rfl
  | succ f ih =>
    intro t ls hle hm
    cases t with
    | nil =>
      show reSplitF (f + 1) [] ls = [[]]
      cases ls <;> rfl
    | cons c t' =>
      unfold hasMarkerFrom at hm
      rw [Bool.or_eq_false_iff] at hm
      have hnone : (if ls then markerLen (c :: t') else none) = none := by
        cases ls
        · rfl
        · rw [if_pos rfl]
          rw [Bool.true_and] at hm
          exact Option.not_isSome_iff_eq_none.mp (by rw [hm.1]; exact Bool.false_ne_true)
      show reSplitF (f + 1) (c :: t') ls = [c :: t']
      simp only [reSplitF, hnone]
      rw [ih t' (c == '\n') (by simp at hle ⊢; omega) hm.2]

theorem segmentsOf_no_marker (t : List Char) (hm : hasMarkerFrom t true = false) :
    segmentsOf t = if pyStrip t = [] then [] else [pyStrip t] := by
  unfold segmentsOf chunksOf
  rw [reSplitF_no_marker t.length t true (Nat.le_refl _) hm, List.map_cons,
    List.map_nil, List.filter]
  by_cases h : pyStrip t = []
  · rw [if_pos h, h]
    rfl
  · rw [if_neg h]
    have : (pyStrip t).isEmpty = false := by
      cases hp : pyStrip t
      · exact absurd hp h
      · rfl
    rw [this]
    rfl

/-- C6 as amended: the splitter trims every chunk and drops empty
chunks; text with no line-start list marker anywhere yields exactly one
segment, the whole trimmed input, provided the input does not trim to
the empty string — an input that trims to nothing (also marker-free)
yields zero segments, not one; and `"1. foo\n2. bar"` splits into
exactly `foo` and `bar`, in that order. -/
theorem C6_segment_split_amended :
    (∀ t : List Char, hasMarkerFrom t true = false → pyStrip t ≠ [] →
        segmentsOf t = [pyStrip t]) ∧
    (∀ t : List Char, hasMarkerFrom t true = false → pyStrip t = [] →
        segmentsOf t = []) ∧
    (∀ t s : List Char, s ∈ segmentsOf t → pyStrip s = s ∧ s ≠ []) ∧
    segmentsOf ("1. foo\n2. bar".data) = ["foo".data, "bar".data] := by
  refine ⟨?_, ?_, ?_, by decide⟩
  · intro t hm hne
    rw [segmentsOf_no_marker t hm, if_neg hne]
  · intro t hm hnil
    rw [segmentsOf_no_marker t hm, if_pos hnil]
  · intro t s hs
    unfold segmentsOf at hs
    rw [List.mem_filter] at hs
    obtain ⟨hmem, hne⟩ := hs
    rw [List.mem_map] at hmem
    obtain ⟨c, _, rfl⟩ := hmem
    refine ⟨pyStrip_idem c, ?_⟩
    intro heq
    rw [heq] at hne
    exact absurd hne (by decide)

/-- C6 counterexample: the empty string contains no marker, yet
splitting it yields zero segments, not the claimed single segment equal
to the whole trimmed input. -/
theorem C6_segment_split_counterexample :
    hasMarkerFrom [] true = false ∧ pyStrip ([] : List Char) = [] ∧
    segmentsOf [] = [] ∧ segmentsOf [] ≠ [pyStrip []] :=
  ⟨rfl, rfl, by decide, by decide⟩

/-- Witness for C6 as amended: a concrete marker-free text yields the
single trimmed segment, and a whitespace-only text yields none. -/
theorem C6_segment_split_witness :
    segmentsOf (" 只有一段 文本 ".data) = [pyStrip (" 只有一段 文本 ".data)] ∧
    segmentsOf ("  \n ".data) = [] :=
  ⟨C6_segment_split_amended.1 _ (by decide) (by decide),
   C6_segment_split_amended.2.1 _ (by decide) (by decide)⟩

/-- C5 counterexample: in the empty-document run the state right after
the `done` transition (history index 4) has status `done` with a null
result path — refuting the claimed point-wise "non-null if and only if
`done`". -/
theorem C5_result_path_counterexample :
    tq.status = "queued".data ∧ tq.file = none ∧
    ((historyOf envEmptyDoc tq)[4]?).map (fun s => (s.status, s.file)) =
      some ("done".data, none) :=
  ⟨rfl, rfl, by decide⟩

/-- Witness for C5 as amended: the empty-document run finishes `done`
with the artifact path recorded. -/
theorem C5_result_path_witness :
    (finalOf envEmptyDoc tq).file = some (envEmptyDoc.outPath) :=
  (C5_result_path_amended envEmptyDoc tq rfl rfl).2.1 (by decide)
